import Mathlib

/-!
Verification of the agentstack worker ingestion-and-retrieval pipeline.

The Python sources are shallowly embedded:
* text is `List Char`; Python slicing / `str.rfind` / `str.strip`
  are modelled with their exact clamping semantics;
* stateful database operations act on an explicit `DB` record;
* external effects (document parser, embedding provider, storage engine)
  are parameters returning `Except`, so each failure path is explicit.
-/

/-! ## Python string primitives -/

/-- The whitespace characters removed by Python `str.strip()`. -/
def isPyWhitespace (c : Char) : Bool :=
  c == ' ' || c == '\t' || c == '\n' || c == '\r' || c == '\x0b' || c == '\x0c'

/-- Python `str.strip()`: drop leading and trailing whitespace. -/
def pyStrip (s : List Char) : List Char :=
  ((s.dropWhile isPyWhitespace).reverse.dropWhile isPyWhitespace).reverse

/-- Clamp a (possibly negative) Python slice index into `[0, n]`:
negative indices count from the end of the string. -/
def clampIdx (n : Nat) (i : Int) : Nat :=
  if i < 0 then ((n : Int) + i).toNat else min i.toNat n

/-- Python slice `s[a:b]` with full index-clamping semantics. -/
def pySlice {α : Type} (s : List α) (a b : Int) : List α :=
  (s.take (clampIdx s.length b)).drop (clampIdx s.length a)

/-- Does `sub` occur in `s` starting at position `k`? -/
def matchesAt (s sub : List Char) (k : Nat) : Bool :=
  (s.drop k).take sub.length == sub

/-- Python `s.rfind(sub, a, b)`: the largest index `k` with
`clamp a ≤ k`, `k + len sub ≤ clamp b` and `sub` occurring at `k`,
or `-1` if there is none. -/
def pyRfind (s sub : List Char) (a b : Int) : Int :=
  let lo := clampIdx s.length a
  let hi := clampIdx s.length b
  ((List.range (hi + 1)).filter
      (fun k => decide (lo ≤ k) && decide (k + sub.length ≤ hi) && matchesAt s sub k)).foldl
    (fun _ k => (k : Int)) (-1)

/-! ## Chunker (`docling_parser.chunk_text`) -/

/-- The sentence separators tried, in order, by `chunk_text`. -/
def sepList : List (List Char) :=
  [". ".toList, ".\n".toList, "! ".toList, "? ".toList, "\n\n".toList]

/-- The `for sep in [...]: idx = text.rfind(sep, search_start, end);
if idx != -1: end = idx + len(sep); break` loop of `chunk_text`. -/
def sepScan (text : List Char) (search_start e : Int) : List (List Char) → Int
  | [] => e
  | sep :: rest =>
    let idx := pyRfind text sep search_start e
    if idx != -1 then idx + sep.length else sepScan text search_start e rest

/-- The cut point chosen for the window starting at `start`:
`end = start + chunk_size`, adjusted backwards to a sentence boundary found
in the last fifth of the window whenever `end < len(text)`.
(`int(chunk_size * 0.2)` equals `chunk_size / 5` for the integer sizes
involved, so the window is embedded as `chunk_size / 5`.) -/
def boundaryEnd (text : List Char) (chunk_size : Nat) (start : Int) : Int :=
  let e := start + (chunk_size : Int)
  if e < (text.length : Int) then
    sepScan text (e - (chunk_size / 5 : Nat)) e sepList
  else e

/-- One iteration of the `while start < len(text)` loop of `chunk_text`:
the emitted (stripped) chunk, and the next value of `start`. -/
def chunkStep (text : List Char) (chunk_size chunk_overlap : Nat) (start : Int) :
    List Char × Int :=
  let e := boundaryEnd text chunk_size start
  (pyStrip (pySlice text start e), e - (chunk_overlap : Int))

/-- The chunking loop, with fuel; `none` means the fuel was exhausted
(the Python loop would still be running). -/
def chunkTextGo (text : List Char) (chunk_size chunk_overlap : Nat) :
    Nat → Int → Option (List (List Char))
  | 0, _ => none
  | fuel + 1, start =>
    if start < (text.length : Int) then
      match chunkTextGo text chunk_size chunk_overlap fuel
          (chunkStep text chunk_size chunk_overlap start).2 with
      | none => none
      | some rest => some ((chunkStep text chunk_size chunk_overlap start).1 :: rest)
    else some []

/-- `chunk_text(text, chunk_size, chunk_overlap)`.  A result `some chunks`
is the list returned by the Python function; `none` means the loop did not
terminate within `fuel` iterations. -/
def chunk_text (text : List Char) (chunk_size chunk_overlap : Nat) (fuel : Nat) :
    Option (List (List Char)) :=
  if text.length ≤ chunk_size then some [text]
  else chunkTextGo text chunk_size chunk_overlap fuel 0

/-- The sequence of values taken by `start` in the chunking loop
(truncated at `fuel` iterations). -/
def chunkStartsGo (text : List Char) (chunk_size chunk_overlap : Nat) :
    Nat → Int → List Int
  | 0, _ => []
  | fuel + 1, start =>
    if start < (text.length : Int) then
      start :: chunkStartsGo text chunk_size chunk_overlap fuel
        (chunkStep text chunk_size chunk_overlap start).2
    else []

/-- Modelled from the spec wording of the amended cut rule: the cut is just
after the rightmost occurrence of the first separator, in the fixed order of
`sepList`, that occurs in the search window; if none occurs the cut stays at
the nominal end. -/
def priorityCut (text : List Char) (search_start e : Int) : Int :=
  match sepList.find? (fun sep => pyRfind text sep search_start e != -1) with
  | some sep => pyRfind text sep search_start e + sep.length
  | none => e

/-- Modelled from the claim wording: the cut is just after the *closest*
(maximal-index) occurrence among all separators in the window; if none
occurs the cut stays at the nominal end. -/
def closestCut (text : List Char) (search_start e : Int) : Int :=
  let hits := sepList.filterMap (fun sep =>
    let i := pyRfind text sep search_start e
    if i == -1 then none else some (i, i + (sep.length : Int)))
  match hits.foldl
      (fun acc h => match acc with
        | none => some h
        | some b => if b.1 < h.1 then some h else some b) none with
  | some b => b.2
  | none => e

/-! ## Embedding generation (`embeddings.py`) -/

/-- The truncation applied to every text before it is sent to the provider:
`if len(text) > max_chars: text = text[:max_chars]` with `max_chars = 30000`. -/
def truncate30000 (t : List Char) : List Char :=
  if 30000 < t.length then t.take 30000 else t

/-- `stop_after_attempt(3)` on `generate_embedding`. -/
def retryAttempts : Nat := 3

/-- `tenacity.wait_exponential(multiplier, min, max)` evaluated at a 1-based
attempt number: `max(min, min(multiplier * 2^(attempt-1), max))`. -/
def tenacityWaitExp (multiplier mn mx attemptNumber : Nat) : Nat :=
  max mn (min (multiplier * 2 ^ (attemptNumber - 1)) mx)

/-- The waits inserted between the attempts of `generate_embedding`
(`wait_exponential(multiplier=1, min=2, max=10)` after attempts 1 and 2). -/
def embeddingRetryWaits : List Nat :=
  (List.range (retryAttempts - 1)).map (fun k => tenacityWaitExp 1 2 10 (k + 1))

/-- The retry loop of the `@retry` decorator: `call` is invoked with the
1-based attempt number; `rem` further attempts are allowed after the current
one.  Returns the final outcome and the number of the last attempt made. -/
def retryExec {α : Type} (call : Nat → Except String α) :
    Nat → Nat → Except String α × Nat
  | attempt, rem =>
    match call attempt, rem with
    | .ok a, _ => (.ok a, attempt)
    | .error e, 0 => (.error e, attempt)
    | .error _, r + 1 => retryExec call (attempt + 1) r

/-- `generate_embedding(text)`: truncate to the safe budget, then call the
provider under the retry decorator (3 attempts total).  The provider is a
parameter receiving the attempt number; the second component is the number
of provider calls made. -/
def generate_embedding {α : Type} (provider : Nat → List Char → Except String α)
    (text : List Char) : Except String α × Nat :=
  retryExec (fun attempt => provider attempt (truncate30000 text)) 1 (retryAttempts - 1)

/-- The `for i in range(0, len(texts), batch_size)` loop of
`generate_embeddings_batch` with batch size `b + 1`: take a group, truncate
each item, call the provider once (no retry decorator on this path), and
concatenate.  `calls` counts provider invocations. -/
def batchGo {α : Type} (provider : Nat → List (List Char) → Except String (List α))
    (b : Nat) (l : List (List Char)) (calls : Nat) : Except String (List α) × Nat :=
  match l with
  | [] => (.ok [], calls)
  | t :: ts =>
    let batch := (List.take (b + 1) (t :: ts)).map truncate30000
    match provider calls batch with
    | .error e => (.error e, calls + 1)
    | .ok es =>
      match batchGo provider b (List.drop b ts) (calls + 1) with
      | (.error e, c) => (.error e, c)
      | (.ok rest, c) => (.ok (es ++ rest), c)
  termination_by l.length
  decreasing_by simp; omega

/-- `generate_embeddings_batch(texts, batch_size)`.  A batch size of zero
makes Python's `range(0, len(texts), 0)` raise `ValueError` before any
provider call. -/
def generate_embeddings_batch {α : Type}
    (provider : Nat → List (List Char) → Except String (List α))
    (texts : List (List Char)) (batch_size : Nat) : Except String (List α) × Nat :=
  match batch_size with
  | 0 => (.error ("ValueError: range() arg 3 must not be zero"), 0)
  | b + 1 => batchGo provider b texts 0

/-! ## Database operations (`database.py`) -/

/-- One row of the `job_status` table. -/
structure JobRow where
  celery_task_id : String
  task_name : String
  status : String
  progress : Option Int
  input_data : Option String
  result_data : Option String
  error_message : Option String
  started_at : Option Nat
  completed_at : Option Nat
deriving DecidableEq

/-- The column assignments performed by `update_job_status` on the matching
row: `status` always; each optional field only when passed non-`None`;
`started_at = NOW()` when the new status is `running`, else
`completed_at = NOW()` when it is `success` or `failed`. -/
def applyJobUpdate (now : Nat) (status : String) (progress : Option Int)
    (result_data error_message : Option String) (r : JobRow) : JobRow :=
  { r with
    status := status
    progress := match progress with | some v => some v | none => r.progress
    result_data := match result_data with | some v => some v | none => r.result_data
    error_message := match error_message with | some v => some v | none => r.error_message
    started_at := if status == "running" then some now else r.started_at
    completed_at :=
      if status == "running" then r.completed_at
      else if status == "success" || status == "failed" then some now
      else r.completed_at }

/-- `update_job_status`: apply `applyJobUpdate` to every row whose
`celery_task_id` matches (the column is unique, but the SQL `UPDATE`
itself is by `WHERE`). -/
def update_job_status (jobs : List JobRow) (now : Nat) (celery_task_id : String)
    (status : String) (progress : Option Int)
    (result_data error_message : Option String) : List JobRow :=
  jobs.map fun r =>
    if r.celery_task_id == celery_task_id then
      applyJobUpdate now status progress result_data error_message r
    else r

/-- One row of the `knowledge_base` table. -/
structure KBRow where
  id : Nat
  source_url : String
  source_type : String
  filename : String
  content_markdown : List Char
  embedding : List Int
  metadata : List (String × String)
  char_count : Nat
deriving DecidableEq

/-- The database state touched by the pipeline. -/
structure DB where
  knowledge_base : List KBRow
  job_status : List JobRow
deriving DecidableEq

/-- `insert_document`: a single `INSERT ... RETURNING id` inside its own
session; on storage failure the session rolls back, so no row is added.
The storage engine's verdict (and the id it assigns) is the `outcome`
parameter. -/
def insert_document (db : DB) (outcome : Except String Nat) (source_url : String)
    (source_type filename : String) (content_markdown : List Char)
    (embedding : List Int) (metadata : List (String × String)) :
    DB × Except String String :=
  match outcome with
  | .error e => (db, .error e)
  | .ok newId =>
    ({ db with
        knowledge_base := db.knowledge_base ++
          [{ id := newId, source_url := source_url, source_type := source_type,
             filename := filename, content_markdown := content_markdown,
             embedding := embedding, metadata := metadata,
             char_count := content_markdown.length }] },
     .ok (toString newId))

/-- A row of the result set of `search_similar_documents`. -/
structure SearchResult where
  id : Nat
  filename : String
  content_markdown : List Char
  metadata : List (String × String)
  similarity : ℚ

/-- `search_similar_documents`: the SQL
`SELECT ... , 1 - (embedding <=> q) AS similarity FROM knowledge_base
WHERE 1 - (embedding <=> q) > threshold ORDER BY embedding <=> q LIMIT lim`.
The pgvector distance operator `<=>` is the abstract parameter `dist`
(scores are modelled in `ℚ`). -/
def search_similar_documents (dist : List Int → List Int → ℚ) (rows : List KBRow)
    (query_embedding : List Int) (lim : Nat) (threshold : ℚ) : List SearchResult :=
  let filtered := rows.filter
    (fun r => decide (threshold < 1 - dist r.embedding query_embedding))
  let sorted := filtered.insertionSort
    (fun r₁ r₂ => dist r₁.embedding query_embedding ≤ dist r₂.embedding query_embedding)
  (sorted.take lim).map fun r =>
    { id := r.id, filename := r.filename, content_markdown := r.content_markdown,
      metadata := r.metadata, similarity := 1 - dist r.embedding query_embedding }

/-! ## Tasks (`tasks.py`) -/

/-- The fields of `parse_document`'s result used by `ingest_document`. -/
structure Parsed where
  markdown : List Char
  filename : String
  source_type : String
  metadata : List (String × String)

/-- The result dictionary of a successful `ingest_document`. -/
structure IngestResult where
  document_id : String
  filename : String
  source_type : String
  char_count : Nat
  status : String
deriving DecidableEq

/-- Serialisation of the result dictionary stored in `result_data`. -/
def encodeIngestResult (r : IngestResult) : String :=
  r.document_id ++ "|" ++ r.filename ++ "|" ++ r.source_type ++ "|" ++
    toString r.char_count ++ "|" ++ r.status

/-- Python `{**a, **b}`: keys of `b` take precedence over keys of `a`. -/
def pyDictMerge (a b : List (String × String)) : List (String × String) :=
  a.filter (fun kv => !(b.any (fun kv2 => kv2.1 == kv.1))) ++ b

/-- The `INSERT INTO job_status ... ON CONFLICT (celery_task_id) DO UPDATE
SET status = running, started_at = NOW()` performed at the start of
`ingest_document`. -/
def upsertJobRunning (jobs : List JobRow) (now : Nat) (tid input : String) :
    List JobRow :=
  if jobs.any (fun r => r.celery_task_id == tid) then
    jobs.map fun r =>
      if r.celery_task_id == tid then
        { r with status := "running", started_at := some now }
      else r
  else
    jobs ++
      [{ celery_task_id := tid, task_name := "ingest_document",
         status := "running", progress := none, input_data := some input,
         result_data := none, error_message := none,
         started_at := none, completed_at := none }]

/-- `ingest_document`: upsert the job row to `running`, then
parse → embed (first 8000 characters) → store, recording terminal success or
failure in `job_status` and re-raising the error.  The three external steps
are parameters: `parseRes` is the outcome of `parse_document`,
`embedRes` the outcome of `generate_embedding` (retries included) on the
text it is given, `insertOutcome` the storage engine's verdict for the
`INSERT`. -/
def ingest_document (parseRes : Except String Parsed)
    (embedRes : List Char → Except String (List Int))
    (insertOutcome : Except String Nat) (db : DB) (now : Nat)
    (task_id source_url : String) (metadata : List (String × String)) :
    DB × Except String IngestResult :=
  let db1 : DB :=
    { db with job_status := upsertJobRunning db.job_status now task_id source_url }
  match parseRes with
  | .error e =>
    let js := update_job_status db1.job_status now task_id ("failed") none none (some e)
    ({ db1 with job_status := js }, .error e)
  | .ok parsed =>
    let embed_text :=
      if 8000 < parsed.markdown.length then parsed.markdown.take 8000
      else parsed.markdown
    match embedRes embed_text with
    | .error e =>
      let js := update_job_status db1.job_status now task_id ("failed") none none (some e)
      ({ db1 with job_status := js }, .error e)
    | .ok embedding =>
      let final_metadata := pyDictMerge parsed.metadata metadata
      match insert_document db1 insertOutcome source_url parsed.source_type
          parsed.filename parsed.markdown embedding final_metadata with
      | (db2, .error e) =>
        let js := update_job_status db2.job_status now task_id ("failed") none none (some e)
        ({ db2 with job_status := js }, .error e)
      | (db2, .ok docId) =>
        let result : IngestResult :=
          { document_id := docId, filename := parsed.filename,
            source_type := parsed.source_type,
            char_count := parsed.markdown.length, status := "success" }
        let js := update_job_status db2.job_status now task_id ("success") (some 100)
          (some (encodeIngestResult result)) none
        ({ db2 with job_status := js }, .ok result)

/-- A per-item entry of `ingest_batch`'s `documents` list: either the result
dictionary of the successful ingestion, or
`{source_url, status: failed, error}`. -/
inductive ItemEntry where
  | okEntry (r : IngestResult)
  | errEntry (source_url : String) (error : String)
deriving DecidableEq

/-- The entry `ingest_batch` appends for item `i`. -/
def entryOf (ing : Nat → String → Except String IngestResult) (i : Nat)
    (url : String) : ItemEntry :=
  match ing i url with
  | .ok r => .okEntry r
  | .error e => .errEntry url e

/-- Is the entry a success entry? -/
def ItemEntry.isOkEntry : ItemEntry → Bool
  | .okEntry _ => true
  | .errEntry _ _ => false

/-- The `for i, url in enumerate(source_urls)` loop of `ingest_batch`,
accumulating the success count, failure count and per-item entries.
`ing i url` is the outcome of `ingest_document` on item `i`. -/
def ingestBatchGo (ing : Nat → String → Except String IngestResult) :
    Nat → List String → Nat × Nat × List ItemEntry
  | _, [] => (0, 0, [])
  | i, url :: rest =>
    let acc := ingestBatchGo ing (i + 1) rest
    match ing i url with
    | .ok r => (acc.1 + 1, acc.2.1, .okEntry r :: acc.2.2)
    | .error e => (acc.1, acc.2.1 + 1, .errEntry url e :: acc.2.2)

/-- The summary dictionary returned by `ingest_batch`. -/
structure BatchResults where
  total : Nat
  success : Nat
  failed : Nat
  documents : List ItemEntry
deriving DecidableEq

/-- `ingest_batch(source_urls)`: sequential per-item ingestion with error
isolation, plus the `(current, total)` progress reports issued after each
item. -/
def ingest_batch (ing : Nat → String → Except String IngestResult)
    (source_urls : List String) : BatchResults × List (Nat × Nat) :=
  ({ total := source_urls.length,
     success := (ingestBatchGo ing 0 source_urls).1,
     failed := (ingestBatchGo ing 0 source_urls).2.1,
     documents := (ingestBatchGo ing 0 source_urls).2.2 },
   (List.range source_urls.length).map (fun k => (k + 1, source_urls.length)))

/-- The per-item entries of `ingest_batch` as a direct map over the
enumerated url list (proved equal to the loop's accumulator below). -/
def entriesFrom (ing : Nat → String → Except String IngestResult) :
    Nat → List String → List ItemEntry
  | _, [] => []
  | i, url :: rest => entryOf ing i url :: entriesFrom ing (i + 1) rest

/-! ## Concrete inputs used to settle individual claims -/

/-- Sixteen letters `a`, a sentence end, then seven letters `b`: 25 characters. -/
def exTextC1 : List Char := "aaaaaaaaaaaaaaaa. bbbbbbb".toList

/-- Sixteen letters `a`, then `". ! "`, then five letters `b`: 25 characters; the window
`[16, 20)` contains `". "` at 16 and the closer `"! "` at 18. -/
def exTextC7 : List Char := "aaaaaaaaaaaaaaaa. ! bbbbb".toList

/-- A provider that fails its first call and succeeds afterwards. -/
def exProvC3 : Nat → List (List Char) → Except String (List Nat) :=
  fun n _ => if n == 0 then .error ("boom") else .ok [7]

/-- A concrete successful ingestion result. -/
def exIngestResult : IngestResult :=
  { document_id := "1", filename := "doc.pdf", source_type := "pdf",
    char_count := 4, status := "success" }

/-- A per-item ingestion oracle where exactly item 1 fails. -/
def exIngestC4 : Nat → String → Except String IngestResult :=
  fun i _ => if i == 1 then .error ("down") else .ok exIngestResult

/-! ## Lemmas about the Python string primitives -/

theorem clampIdx_le (n : Nat) (i : Int) : clampIdx n i ≤ n := by
  unfold clampIdx; split <;> omega

theorem pySlice_length {α : Type} (s : List α) (a b : Int) :
    (pySlice s a b).length = clampIdx s.length b - clampIdx s.length a := by
  simp only [pySlice, List.length_drop, List.length_take]
  rw [Nat.min_eq_left (clampIdx_le _ _)]

theorem pyStrip_length_le (s : List Char) : (pyStrip s).length ≤ s.length := by
  unfold pyStrip
  calc ((s.dropWhile isPyWhitespace).reverse.dropWhile isPyWhitespace).reverse.length
      = ((s.dropWhile isPyWhitespace).reverse.dropWhile isPyWhitespace).length := by
        simp
    _ ≤ (s.dropWhile isPyWhitespace).reverse.length :=
        (List.dropWhile_sublist _).length_le
    _ = (s.dropWhile isPyWhitespace).length := by simp
    _ ≤ s.length := (List.dropWhile_sublist _).length_le

theorem foldl_pick (l : List Nat) (init : Int) :
    l.foldl (fun _ k => (k : Int)) init = init ∨
      ∃ k ∈ l, l.foldl (fun _ k => (k : Int)) init = (k : Int) := by
  induction l generalizing init with
  | nil => left; rfl
  | cons a t ih =>
    rcases ih (a : Int) with h | ⟨k, hk, h⟩
    · right; exact ⟨a, List.mem_cons_self a t, h⟩
    · right; exact ⟨k, List.mem_cons_of_mem a hk, h⟩

theorem pyRfind_cases (s sub : List Char) (a b : Int) :
    pyRfind s sub a b = -1 ∨
      ∃ k : Nat, pyRfind s sub a b = (k : Int) ∧
        clampIdx s.length a ≤ k ∧ k + sub.length ≤ clampIdx s.length b := by
  unfold pyRfind
  rcases foldl_pick
      ((List.range (clampIdx s.length b + 1)).filter
        (fun k => decide (clampIdx s.length a ≤ k) &&
          decide (k + sub.length ≤ clampIdx s.length b) && matchesAt s sub k)) (-1) with
    h | ⟨k, hk, h⟩
  · left; exact h
  · right
    refine ⟨k, h, ?_, ?_⟩
    · have := (List.mem_filter.mp hk).2
      simp only [Bool.and_eq_true, decide_eq_true_eq] at this
      exact this.1.1
    · have := (List.mem_filter.mp hk).2
      simp only [Bool.and_eq_true, decide_eq_true_eq] at this
      exact this.1.2

theorem sepScan_cases (text : List Char) (a e : Int) (seps : List (List Char)) :
    sepScan text a e seps = e ∨
      ∃ m : Nat, sepScan text a e seps = (m : Int) ∧ m ≤ clampIdx text.length e := by
  induction seps with
  | nil => left; rfl
  | cons sep rest ih =>
    rcases pyRfind_cases text sep a e with h | ⟨k, h, _, hk⟩
    · simpa [sepScan, h] using ih
    · right
      refine ⟨k + sep.length, ?_, hk⟩
      simp only [sepScan, h]
      rw [if_pos (by simp only [bne_iff_ne, ne_eq]; omega)]
      push_cast
      ring

theorem boundaryEnd_cases (text : List Char) (cs : Nat) (start : Int) :
    boundaryEnd text cs start = start + (cs : Int) ∨
      ∃ m : Nat, boundaryEnd text cs start = (m : Int) ∧
        m ≤ clampIdx text.length (start + cs) := by
  simp only [boundaryEnd]
  split
  · exact sepScan_cases text _ _ sepList
  · left; rfl

theorem clamp_window_a (n cs : Nat) (start : Int) :
    clampIdx n (start + cs) - clampIdx n start ≤ cs := by
  unfold clampIdx; split_ifs <;> omega

theorem clamp_window_b (n cs : Nat) (start : Int) (m : Nat)
    (hm : m ≤ clampIdx n (start + cs)) :
    clampIdx n (m : Int) - clampIdx n start ≤ cs := by
  unfold clampIdx at hm ⊢; split_ifs at hm ⊢ <;> omega

theorem chunkStep_length (text : List Char) (cs ov : Nat) (start : Int) :
    ((chunkStep text cs ov start).1).length ≤ cs := by
  have hs : ((chunkStep text cs ov start).1).length ≤
      (pySlice text start (boundaryEnd text cs start)).length :=
    pyStrip_length_le _
  rcases boundaryEnd_cases text cs start with h | ⟨m, h, hm⟩
  · rw [h] at hs
    calc ((chunkStep text cs ov start).1).length
        ≤ (pySlice text start (start + (cs : Int))).length := hs
      _ = clampIdx text.length (start + cs) - clampIdx text.length start :=
          pySlice_length _ _ _
      _ ≤ cs := clamp_window_a _ _ _
  · rw [h] at hs
    calc ((chunkStep text cs ov start).1).length
        ≤ (pySlice text start (m : Int)).length := hs
      _ = clampIdx text.length (m : Int) - clampIdx text.length start :=
          pySlice_length _ _ _
      _ ≤ cs := clamp_window_b _ _ _ _ hm

theorem chunkTextGo_length (text : List Char) (cs ov : Nat) :
    ∀ (fuel : Nat) (start : Int) (res : List (List Char)),
      chunkTextGo text cs ov fuel start = some res →
      ∀ c ∈ res, c.length ≤ cs := by
  intro fuel
  induction fuel with
  | zero => intro start res h; exact absurd h (by simp [chunkTextGo])
  | succ n ih =>
    intro start res h
    rw [chunkTextGo] at h
    split at h
    · cases hrec : chunkTextGo text cs ov n (chunkStep text cs ov start).2 with
      | none => rw [hrec] at h; exact absurd h (by simp)
      | some rest =>
        rw [hrec] at h
        simp only [Option.some.injEq] at h
        subst h
        intro c hc
        rcases List.mem_cons.mp hc with hc | hc
        · subst hc; exact chunkStep_length text cs ov start
        · exact ih _ rest hrec c hc
    · simp only [Option.some.injEq] at h
      subst h
      intro c hc
      exact absurd hc (List.not_mem_nil c)

/-- Claim C8: for every text, maxSize and overlap, every chunk returned by
`chunk_text` has length at most `maxSize` plus the boundary-search window
(20% of `maxSize`).  In fact every chunk has length at most `maxSize`. -/
theorem chunk_text_length_bound (text : List Char) (cs ov fuel : Nat)
    (res : List (List Char)) (h : chunk_text text cs ov fuel = some res) :
    ∀ c ∈ res, c.length ≤ cs + cs / 5 := by
  unfold chunk_text at h
  split at h
  · simp only [Option.some.injEq] at h
    subst h
    intro c hc
    rcases List.mem_cons.mp hc with hc | hc
    · subst hc; omega
    · exact absurd hc (List.not_mem_nil c)
  · intro c hc
    have := chunkTextGo_length text cs ov fuel 0 res h c hc
    omega

/-- Witness for C8 on a concrete run of `chunk_text`. -/
theorem chunk_text_length_bound_witness :
    chunk_text "ab".toList 1 0 3 = some ["a".toList, "b".toList] ∧
      ∀ c ∈ ["a".toList, "b".toList], c.length ≤ 1 + 1 / 5 :=
  ⟨by decide, fun c hc => chunk_text_length_bound "ab".toList 1 0 3 _ (by decide) c hc⟩

/-- Claim C6 (amended): for every text with `len(text) ≤ maxSize`,
`chunk_text` returns exactly one chunk equal to the input text *unmodified*
(the single-chunk path performs no trimming). -/
theorem chunk_text_single (text : List Char) (cs ov fuel : Nat)
    (h : text.length ≤ cs) : chunk_text text cs ov fuel = some [text] := by
  unfold chunk_text
  rw [if_pos h]

/-- Counterexample to claim C6 as stated: on the three-character input
`" a "` (which fits in one chunk of size 10) the returned chunk is the
untrimmed input, not the trimmed text `"a"`. -/
theorem chunk_text_single_not_trimmed :
    chunk_text " a ".toList 10 5 1 = some [" a ".toList] ∧
      [" a ".toList] ≠ [pyStrip " a ".toList] := by
  constructor
  · decide
  · decide

/-- Witness for the amended C6 on a concrete input. -/
theorem chunk_text_single_witness : chunk_text "ab".toList 5 2 0 = some ["ab".toList] :=
  chunk_text_single "ab".toList 5 2 0 (by decide)

/-! ## Claim C1: progress of the chunking loop -/

theorem chunkStep_exC1_zero : (chunkStep exTextC1 20 19 0).2 = -1 := by decide

theorem chunkStep_exC1_neg : (chunkStep exTextC1 20 19 (-1)).2 = -1 := by decide

theorem chunkTextGo_exC1_stuck :
    ∀ fuel : Nat, chunkTextGo exTextC1 20 19 fuel (-1) = none := by
  intro fuel
  induction fuel with
  | zero => rfl
  | succ n ih =>
    rw [chunkTextGo, chunkStep_exC1_neg, ih]
    rw [if_pos (by decide)]

/-- Claim C1 is violated by the code: on the 25-character input `exTextC1`
with `chunk_size = 20` and `chunk_overlap = 19 < 20`, the start offsets go
`0, -1, -1, …` — the second start is *smaller* than the first, the sequence
is not strictly increasing, and the loop never terminates (no amount of
fuel makes `chunk_text` return). -/
theorem chunk_text_not_monotone :
    chunkStartsGo exTextC1 20 19 3 0 = [0, -1, -1] ∧
      ¬ List.Chain' (fun a b : Int => a < b) (chunkStartsGo exTextC1 20 19 3 0) ∧
      ∀ fuel : Nat, chunk_text exTextC1 20 19 fuel = none := by
  refine ⟨by decide, ?_, ?_⟩
  · intro h
    rw [show chunkStartsGo exTextC1 20 19 3 0 = [0, -1, -1] from by decide] at h
    rcases List.chain'_cons.mp h with ⟨h01, _⟩
    omega
  · intro fuel
    rw [chunk_text, if_neg (by decide)]
    cases fuel with
    | zero => rfl
    | succ n =>
      rw [chunkTextGo, chunkStep_exC1_zero, chunkTextGo_exC1_stuck n]
      rw [if_pos (by decide)]

/-! ## Claim C7: the boundary-cut rule -/

theorem sepScan_eq_find (text : List Char) (a e : Int) (seps : List (List Char)) :
    sepScan text a e seps =
      (match seps.find? (fun sep => pyRfind text sep a e != -1) with
        | some sep => pyRfind text sep a e + sep.length
        | none => e) := by
  induction seps with
  | nil => rfl
  | cons sep rest ih =>
    by_cases h : (pyRfind text sep a e != -1) = true
    · simp only [sepScan, List.find?_cons, h]
      simp
    · have hb : (pyRfind text sep a e != -1) = false := by
        revert h; cases pyRfind text sep a e != -1 <;> simp
      simp only [sepScan, List.find?_cons, hb]
      simpa using ih

/-- Claim C7 (amended): the cut point for a window is computed by trying the
separators in the fixed order of `sepList` (`". "`, `".\n"`, `"! "`, `"? "`,
`"\n\n"`) and cutting just after the *rightmost* occurrence of the first
separator kind that occurs in the last-20% search window — not the closest
occurrence among all separator kinds; only if no separator occurs (or the
nominal end already reaches the end of the text) is the cut exactly at
`start + maxSize`. -/
theorem boundaryEnd_priority (text : List Char) (cs : Nat) (start : Int) :
    (boundaryEnd text cs start =
      (if start + (cs : Int) < (text.length : Int) then
        priorityCut text (start + (cs : Int) - (cs / 5 : Nat)) (start + (cs : Int))
      else start + (cs : Int))) ∧
    ((∀ sep ∈ sepList,
        pyRfind text sep (start + (cs : Int) - (cs / 5 : Nat)) (start + (cs : Int)) = -1) →
      boundaryEnd text cs start = start + (cs : Int)) := by
  constructor
  · simp only [boundaryEnd, priorityCut]
    split
    · exact sepScan_eq_find text _ _ sepList
    · rfl
  · intro hnone
    simp only [boundaryEnd]
    split
    · rw [sepScan_eq_find text _ _ sepList]
      have : sepList.find?
          (fun sep => pyRfind text sep (start + (cs : Int) - (cs / 5 : Nat))
            (start + (cs : Int)) != -1) = none := by
        rw [List.find?_eq_none]
        intro sep hsep
        simp only [bne_iff_ne, ne_eq, Decidable.not_not]
        exact hnone sep hsep
      rw [this]
    · rfl

/-- Counterexample to claim C7 as stated: on `exTextC7` the first window is
`[0, 20)` with search window `[16, 20)`; the closest sentence delimiter is
`"! "` at index 18 (cut 20), but the code cuts at 18, just after the
rightmost `". "`, because `". "` comes first in the separator list.  The
first emitted chunk is therefore `"aaaaaaaaaaaaaaaa."`. -/
theorem boundaryEnd_not_closest :
    boundaryEnd exTextC7 20 0 = 18 ∧
      closestCut exTextC7 16 20 = 20 ∧
      (18 : Int) ≠ 20 ∧
      (chunkStep exTextC7 20 5 0).1 = "aaaaaaaaaaaaaaaa.".toList := by
  refine ⟨by decide, by decide, by decide, by decide⟩

/-- Witness for the amended C7: on a one-character text the nominal end
reaches past the text, no separator is searched, and the cut is exactly
`start + maxSize`. -/
theorem boundaryEnd_priority_witness : boundaryEnd "x".toList 10 0 = 0 + (10 : Int) :=
  (boundaryEnd_priority "x".toList 10 0).2 (by decide)

/-! ## Claim C3: retry behaviour of the two embedding paths -/

/-- Counterexample to claim C3 as stated: on the batch path a provider whose
*first* call fails (and whose second call would succeed) is not retried —
the error is surfaced after exactly one provider call, not after 3
attempts. -/
theorem batch_not_retried :
    generate_embeddings_batch exProvC3 ["x".toList] 100 = (.error ("boom"), 1) ∧
      exProvC3 1 ["x".toList] = .ok [7] := by
  constructor
  · simp only [generate_embeddings_batch]
    rw [batchGo]
    simp [exProvC3]
  · simp [exProvC3]

/-- Claim C3 (amended): the single-text path `generate_embedding` retries up
to 3 attempts total — failures on attempts 1 and 2 are retried, and only
when attempt 3 also fails is the provider error surfaced — with the waits
configured by `wait_exponential(multiplier=1, min=2, max=10)` (2 time units
after each of the first two attempts); the batch path
`generate_embeddings_batch` performs no retries: the first provider failure
is surfaced immediately after a single call. -/
theorem embedding_retry_behavior :
    (∀ (α : Type) (prov : Nat → List Char → Except String α) (text : List Char)
        (e1 e2 e3 : String),
      prov 1 (truncate30000 text) = .error e1 →
      prov 2 (truncate30000 text) = .error e2 →
      prov 3 (truncate30000 text) = .error e3 →
      generate_embedding prov text = (.error e3, 3)) ∧
    (∀ (α : Type) (prov : Nat → List Char → Except String α) (text : List Char)
        (e1 e2 : String) (v : α),
      prov 1 (truncate30000 text) = .error e1 →
      prov 2 (truncate30000 text) = .error e2 →
      prov 3 (truncate30000 text) = .ok v →
      generate_embedding prov text = (.ok v, 3)) ∧
    embeddingRetryWaits = [2, 2] ∧
    (∀ (α : Type) (prov : Nat → List (List Char) → Except String (List α))
        (texts : List (List Char)) (b : Nat) (e : String),
      prov 0 ((List.take (b + 1) texts).map truncate30000) = .error e →
      texts ≠ [] →
      generate_embeddings_batch prov texts (b + 1) = (.error e, 1)) := by
  refine ⟨?_, ?_, by decide, ?_⟩
  · intro α prov text e1 e2 e3 h1 h2 h3
    simp [generate_embedding, retryAttempts, retryExec, h1, h2, h3]
  · intro α prov text e1 e2 v h1 h2 h3
    simp [generate_embedding, retryAttempts, retryExec, h1, h2, h3]
  · intro α prov texts b e h hne
    cases texts with
    | nil => exact absurd rfl hne
    | cons t ts =>
      simp only [generate_embeddings_batch]
      rw [batchGo]
      rw [h]

/-- Witness for the amended C3 at concrete inputs: the single path makes all
3 attempts before failing, and the batch path fails after one call. -/
theorem embedding_retry_behavior_witness :
    generate_embedding (fun n (_ : List Char) => (.error (toString n) : Except String Nat))
        "x".toList = (.error ("3"), 3) ∧
      generate_embeddings_batch exProvC3 ["x".toList] (99 + 1) = (.error ("boom"), 1) := by
  constructor
  · exact embedding_retry_behavior.1 Nat
      (fun n _ => .error (toString n)) "x".toList ("1") ("2") ("3") rfl rfl rfl
  · exact embedding_retry_behavior.2.2.2 Nat exProvC3 ["x".toList] 99 ("boom")
      (by simp [exProvC3]) (by simp)

/-! ## Claim C9: order preservation of the batch path -/

theorem batchGo_ideal {α : Type} (f : List Char → α) (b : Nat) :
    ∀ (n : Nat) (l : List (List Char)) (calls : Nat), l.length ≤ n →
      (batchGo (fun _ batch => .ok (batch.map f)) b l calls).1 =
        .ok (l.map fun t => f (truncate30000 t)) := by
  intro n
  induction n with
  | zero =>
    intro l calls hl
    have : l = [] := List.length_eq_zero.mp (Nat.le_zero.mp hl)
    subst this
    rw [batchGo]
    rfl
  | succ n ih =>
    intro l calls hl
    cases l with
    | nil => rw [batchGo]; rfl
    | cons t ts =>
      rw [batchGo]
      have hrec := ih (List.drop b ts) (calls + 1)
        (by simp only [List.length_drop]; simp at hl; omega)
      cases hb : batchGo (fun _ batch => .ok (batch.map f)) b (List.drop b ts) (calls + 1) with
      | mk res c =>
        rw [hb] at hrec
        simp only at hrec
        subst hrec
        simp only [List.map_map]
        rw [show (fun t => f (truncate30000 t)) = f ∘ truncate30000 from rfl]
        rw [show (List.drop b ts) = List.drop (b + 1) (t :: ts) from rfl]
        rw [← List.map_append, List.take_append_drop]

/-- Claim C9 (amended): for every batch size of at least 1 and every
order-preserving provider (modelled as returning `f` of each truncated item,
one output per input), `generate_embeddings_batch` returns one embedding per
input text in the original order: output `i` is `f` of (the truncation of)
`texts[i]`.  (Batch size 0 is excluded: Python raises `ValueError` there.) -/
theorem batch_order_preserved {α : Type} (f : List Char → α)
    (texts : List (List Char)) (b : Nat) :
    (generate_embeddings_batch (fun _ batch => .ok (batch.map f)) texts (b + 1)).1 =
      .ok (texts.map fun t => f (truncate30000 t)) := by
  simp only [generate_embeddings_batch]
  exact batchGo_ideal f b texts.length texts 0 (Nat.le_refl _)

/-- Counterexample to claim C9 as stated ("for every batch size"): with
batch size 0, Python's `range(0, len(texts), 0)` raises `ValueError`, so no
list of embeddings is returned at all. -/
theorem batch_size_zero_raises :
    generate_embeddings_batch (fun _ batch => .ok (batch.map List.length))
        ["a".toList] 0 =
      (.error ("ValueError: range() arg 3 must not be zero"), 0) ∧
      ∀ res : List Nat,
        (generate_embeddings_batch (fun _ batch => .ok (batch.map List.length))
          ["a".toList] 0).1 ≠ .ok res := by
  constructor
  · rfl
  · intro res h
    rw [show (generate_embeddings_batch (fun _ batch => .ok (batch.map List.length))
        ["a".toList] 0).1 =
        .error ("ValueError: range() arg 3 must not be zero") from rfl] at h
    exact absurd h (by simp)

/-! ## Claim C5: vector search semantics -/

/-- Claim C5: for every distance function, stored rows, query vector, limit
and threshold, `search_similar_documents` returns only rows with similarity
(`1 - distance`) strictly greater than the threshold, in non-increasing
similarity (ascending distance) order, and at most `limit` rows. -/
theorem search_similar_documents_spec (dist : List Int → List Int → ℚ)
    (rows : List KBRow) (q : List Int) (lim : Nat) (threshold : ℚ) :
    (∀ x ∈ search_similar_documents dist rows q lim threshold,
        threshold < x.similarity) ∧
    (search_similar_documents dist rows q lim threshold).Pairwise
      (fun a b => b.similarity ≤ a.similarity) ∧
    (search_similar_documents dist rows q lim threshold).length ≤ lim := by
  refine ⟨?_, ?_, ?_⟩
  · intro x hx
    simp only [search_similar_documents, List.mem_map] at hx
    obtain ⟨r, hr, rfl⟩ := hx
    have hr' := List.take_subset _ _ hr
    have hr'' := (List.perm_insertionSort
      (fun r₁ r₂ => dist r₁.embedding q ≤ dist r₂.embedding q)
      (rows.filter (fun r => decide (threshold < 1 - dist r.embedding q)))).subset hr'
    have := List.of_mem_filter hr''
    simpa using this
  · haveI : IsTotal KBRow (fun r₁ r₂ => dist r₁.embedding q ≤ dist r₂.embedding q) :=
      ⟨fun a b => le_total _ _⟩
    haveI : IsTrans KBRow (fun r₁ r₂ => dist r₁.embedding q ≤ dist r₂.embedding q) :=
      ⟨fun a b c hab hbc => le_trans hab hbc⟩
    have hs := List.sorted_insertionSort
      (fun r₁ r₂ => dist r₁.embedding q ≤ dist r₂.embedding q)
      (rows.filter (fun r => decide (threshold < 1 - dist r.embedding q)))
    have ht := List.Pairwise.sublist (List.take_sublist lim _) hs
    simp only [search_similar_documents]
    exact List.Pairwise.map _ (fun a b hab => sub_le_sub_left hab 1) ht
  · simp only [search_similar_documents, List.length_map, List.length_take]
    exact Nat.min_le_left _ _

/-- Witness for C5 at a concrete corpus: the empty row set yields an empty
result, trivially satisfying the threshold, ordering and limit clauses. -/
theorem search_similar_documents_spec_witness :
    (search_similar_documents (fun _ _ => 0) [] [] 5 (7 / 10)).length ≤ 5 :=
  (search_similar_documents_spec (fun _ _ => 0) [] [] 5 (7 / 10)).2.2

/-! ## Claim C10: frame property of `update_job_status` -/

theorem applyJobUpdate_fields (now : Nat) (st : String) (p : Option Int)
    (rd em : Option String) (r : JobRow) :
    (applyJobUpdate now st p rd em r).celery_task_id = r.celery_task_id ∧
    (applyJobUpdate now st p rd em r).task_name = r.task_name ∧
    (applyJobUpdate now st p rd em r).input_data = r.input_data ∧
    (applyJobUpdate now st p rd em r).status = st ∧
    (p = none → (applyJobUpdate now st p rd em r).progress = r.progress) ∧
    (∀ v, p = some v → (applyJobUpdate now st p rd em r).progress = some v) ∧
    (rd = none → (applyJobUpdate now st p rd em r).result_data = r.result_data) ∧
    (∀ v, rd = some v → (applyJobUpdate now st p rd em r).result_data = some v) ∧
    (em = none → (applyJobUpdate now st p rd em r).error_message = r.error_message) ∧
    (∀ v, em = some v → (applyJobUpdate now st p rd em r).error_message = some v) ∧
    (st = "running" → (applyJobUpdate now st p rd em r).started_at = some now ∧
      (applyJobUpdate now st p rd em r).completed_at = r.completed_at) ∧
    (st ≠ "running" → (applyJobUpdate now st p rd em r).started_at = r.started_at) ∧
    ((st = "success" ∨ st = "failed") →
      (applyJobUpdate now st p rd em r).completed_at = some now) ∧
    (st ≠ "running" → st ≠ "success" → st ≠ "failed" →
      (applyJobUpdate now st p rd em r).completed_at = r.completed_at) := by
  unfold applyJobUpdate
  refine ⟨rfl, rfl, rfl, rfl, ?_, ?_, ?_, ?_, ?_, ?_, ?_, ?_, ?_, ?_⟩
  · rintro rfl; rfl
  · rintro v rfl; rfl
  · rintro rfl; rfl
  · rintro v rfl; rfl
  · rintro rfl; rfl
  · rintro v rfl; rfl
  · rintro rfl; exact ⟨by simp, by simp⟩
  · intro h
    simp only [beq_eq_false_iff_ne.mpr h, Bool.false_eq_true, if_false]
  · rintro (rfl | rfl) <;> simp
  · intro h1 h2 h3
    simp only [beq_eq_false_iff_ne.mpr h1, beq_eq_false_iff_ne.mpr h2,
      beq_eq_false_iff_ne.mpr h3, Bool.or_self, Bool.false_eq_true, if_false]

/-- Claim C10: `update_job_status` modifies, on the matching job row, only
the status column, the optional fields passed as non-`None`, and the
timestamp implied by the status (`started_at` only for `running`,
`completed_at` only for `success`/`failed`); `task_name`, `input_data`,
any optional field passed as `None`, and every non-matching row are left
unchanged. -/
theorem update_job_status_frame (jobs : List JobRow) (now : Nat) (tid st : String)
    (p : Option Int) (rd em : Option String) :
    List.Forall₂ (fun r r' =>
      (r.celery_task_id ≠ tid → r' = r) ∧
      (r.celery_task_id = tid →
        r'.celery_task_id = r.celery_task_id ∧
        r'.task_name = r.task_name ∧
        r'.input_data = r.input_data ∧
        r'.status = st ∧
        (p = none → r'.progress = r.progress) ∧
        (∀ v, p = some v → r'.progress = some v) ∧
        (rd = none → r'.result_data = r.result_data) ∧
        (∀ v, rd = some v → r'.result_data = some v) ∧
        (em = none → r'.error_message = r.error_message) ∧
        (∀ v, em = some v → r'.error_message = some v) ∧
        (st = "running" → r'.started_at = some now ∧ r'.completed_at = r.completed_at) ∧
        (st ≠ "running" → r'.started_at = r.started_at) ∧
        ((st = "success" ∨ st = "failed") → r'.completed_at = some now) ∧
        (st ≠ "running" → st ≠ "success" → st ≠ "failed" →
          r'.completed_at = r.completed_at)))
      jobs (update_job_status jobs now tid st p rd em) := by
  induction jobs with
  | nil => exact List.Forall₂.nil
  | cons a t ih =>
    simp only [update_job_status, List.map_cons] at ih ⊢
    refine List.Forall₂.cons ?_ ih
    by_cases h : a.celery_task_id = tid
    · rw [if_pos (beq_iff_eq.mpr h)]
      exact ⟨fun hne => absurd h hne, fun _ => applyJobUpdate_fields now st p rd em a⟩
    · rw [if_neg (by simp [h])]
      exact ⟨fun _ => rfl, fun he => absurd he h⟩

/-- Witness for C10 on a concrete row: marking a job failed with an error
message leaves `task_name` and `input_data` untouched and does not set
`started_at`. -/
theorem update_job_status_frame_witness :
    ∃ r' : JobRow,
      update_job_status
        [{ celery_task_id := "t1", task_name := "ingest_document",
           status := "running", progress := some 10, input_data := some ("u"),
           result_data := none, error_message := none,
           started_at := some 3, completed_at := none }] 7 ("t1") ("failed")
        none none (some ("oops")) = [r'] ∧
      r'.task_name = "ingest_document" ∧ r'.input_data = some ("u") ∧
      r'.status = "failed" ∧ r'.error_message = some ("oops") ∧
      r'.progress = some 10 ∧ r'.started_at = some 3 ∧ r'.completed_at = some 7 := by
  have h := update_job_status_frame
    [{ celery_task_id := "t1", task_name := "ingest_document",
       status := "running", progress := some 10, input_data := some ("u"),
       result_data := none, error_message := none,
       started_at := some 3, completed_at := none }] 7 ("t1") ("failed")
    none none (some ("oops"))
  cases h with
  | cons hrel hnil =>
    cases hnil
    refine ⟨_, rfl, ?_⟩
    have hc := hrel.2 rfl
    exact ⟨hc.2.1, hc.2.2.1, hc.2.2.2.1, hc.2.2.2.2.2.2.2.2.2.1 _ rfl,
      hc.2.2.2.2.1 rfl, hc.2.2.2.2.2.2.2.2.2.2.2.1 (by decide),
      hc.2.2.2.2.2.2.2.2.2.2.2.2.1 (Or.inr rfl)⟩

/-! ## Claim C2: atomicity of `ingest_document` -/

theorem find?_update_job (jobs : List JobRow) (now : Nat) (tid st : String)
    (p : Option Int) (rd em : Option String) (j : JobRow)
    (h : jobs.find? (fun r => r.celery_task_id == tid) = some j) :
    (update_job_status jobs now tid st p rd em).find?
        (fun r => r.celery_task_id == tid) =
      some (applyJobUpdate now st p rd em j) := by
  induction jobs with
  | nil => simp at h
  | cons a t ih =>
    simp only [update_job_status, List.map_cons] at ih ⊢
    by_cases ha : (a.celery_task_id == tid) = true
    · rw [if_pos ha]
      simp only [List.find?_cons, ha, Option.some.injEq] at h
      subst h
      have hid : (applyJobUpdate now st p rd em a).celery_task_id = a.celery_task_id := rfl
      simp only [List.find?_cons, hid, ha]
    · have hb : (a.celery_task_id == tid) = false := by
        revert ha; cases a.celery_task_id == tid <;> simp
      rw [if_neg (by simp [hb])]
      simp only [List.find?_cons, hb] at h ⊢
      exact ih h

theorem find_markRunning (now : Nat) (tid : String) :
    ∀ jobs : List JobRow, jobs.any (fun r => r.celery_task_id == tid) = true →
      ∃ j, (jobs.map fun r =>
          if r.celery_task_id == tid then
            { r with status := "running", started_at := some now }
          else r).find? (fun r => r.celery_task_id == tid) = some j := by
  intro jobs
  induction jobs with
  | nil => intro h; simp at h
  | cons a t ih =>
    intro h
    by_cases ha : (a.celery_task_id == tid) = true
    · refine ⟨{ a with status := "running", started_at := some now }, ?_⟩
      simp only [List.map_cons, if_pos ha, List.find?_cons]
      have hid : ({ a with status := "running", started_at := some now } :
          JobRow).celery_task_id = a.celery_task_id := rfl
      simp only [hid, ha]
    · have hb : (a.celery_task_id == tid) = false := by
        revert ha; cases a.celery_task_id == tid <;> simp
      simp only [List.any_cons, hb, Bool.false_or] at h
      obtain ⟨j, hj⟩ := ih h
      refine ⟨j, ?_⟩
      simp only [List.map_cons]
      rw [if_neg (by simp [hb])]
      simp only [List.find?_cons, hb]
      exact hj

theorem upsertJobRunning_find (jobs : List JobRow) (now : Nat) (tid input : String) :
    ∃ j, (upsertJobRunning jobs now tid input).find?
        (fun r => r.celery_task_id == tid) = some j := by
  unfold upsertJobRunning
  split
  · exact find_markRunning now tid jobs (by assumption)
  · rename_i h
    have hnone : jobs.find? (fun r => r.celery_task_id == tid) = none := by
      rw [List.find?_eq_none]
      intro x hx hpx
      exact h (List.any_eq_true.mpr ⟨x, hx, hpx⟩)
    refine ⟨{ celery_task_id := tid,
              task_name := "ingest_document",
              status := "running",
              progress := none,
              input_data := some input,
              result_data := none,
              error_message := none,
              started_at := none,
              completed_at := none }, ?_⟩
    rw [List.find?_append, hnone, Option.none_or]
    simp

/-- Claim C2: a run of `ingest_document` creates exactly one
`knowledge_base` row when it returns success, and zero rows when any step
(parse, embedding, storage) fails — in which case the job row is set to
status `failed` carrying the error message. -/
theorem ingest_document_atomic :
    (∀ (parseRes : Except String Parsed)
        (embedRes : List Char → Except String (List Int))
        (insertOutcome : Except String Nat) (db : DB) (now : Nat)
        (task_id source_url : String) (metadata : List (String × String))
        (db' : DB) (r : IngestResult),
      ingest_document parseRes embedRes insertOutcome db now task_id source_url
          metadata = (db', .ok r) →
      ∃ d, db'.knowledge_base = db.knowledge_base ++ [d]) ∧
    (∀ (parseRes : Except String Parsed)
        (embedRes : List Char → Except String (List Int))
        (insertOutcome : Except String Nat) (db : DB) (now : Nat)
        (task_id source_url : String) (metadata : List (String × String))
        (db' : DB) (e : String),
      ingest_document parseRes embedRes insertOutcome db now task_id source_url
          metadata = (db', .error e) →
      db'.knowledge_base = db.knowledge_base ∧
      ∃ j, db'.job_status.find? (fun row => row.celery_task_id == task_id) = some j ∧
        j.status = "failed" ∧ j.error_message = some e) := by
  constructor
  · intro parseRes embedRes insertOutcome db now task_id source_url metadata db' r h
    cases parseRes with
    | error e => simp [ingest_document] at h
    | ok parsed =>
      cases hemb : embedRes (if 8000 < parsed.markdown.length then
          parsed.markdown.take 8000 else parsed.markdown) with
      | error e => simp [ingest_document, hemb] at h
      | ok emb =>
        cases insertOutcome with
        | error e => simp [ingest_document, insert_document, hemb] at h
        | ok newId =>
          simp only [ingest_document, insert_document, hemb] at h
          rw [Prod.mk.injEq] at h
          obtain ⟨hdb, _⟩ := h
          subst hdb
          exact ⟨_, rfl⟩
  · intro parseRes embedRes insertOutcome db now task_id source_url metadata db' e h
    obtain ⟨j₀, hj₀⟩ := upsertJobRunning_find db.job_status now task_id source_url
    cases parseRes with
    | error e0 =>
      simp only [ingest_document] at h
      rw [Prod.mk.injEq] at h
      obtain ⟨hdb, he⟩ := h
      have he' : e0 = e := by
        cases he
        rfl
      subst he'
      subst hdb
      refine ⟨rfl, applyJobUpdate now ("failed") none none (some e0) j₀, ?_, rfl, rfl⟩
      exact find?_update_job _ now task_id ("failed") none none (some e0) j₀ hj₀
    | ok parsed =>
      cases hemb : embedRes (if 8000 < parsed.markdown.length then
          parsed.markdown.take 8000 else parsed.markdown) with
      | error e0 =>
        simp only [ingest_document, hemb] at h
        rw [Prod.mk.injEq] at h
        obtain ⟨hdb, he⟩ := h
        have he' : e0 = e := by
          cases he
          rfl
        subst he'
        subst hdb
        refine ⟨rfl, applyJobUpdate now ("failed") none none (some e0) j₀, ?_, rfl, rfl⟩
        exact find?_update_job _ now task_id ("failed") none none (some e0) j₀ hj₀
      | ok emb =>
        cases insertOutcome with
        | error e0 =>
          simp only [ingest_document, insert_document, hemb] at h
          rw [Prod.mk.injEq] at h
          obtain ⟨hdb, he⟩ := h
          have he' : e0 = e := by
            cases he
            rfl
          subst he'
          subst hdb
          refine ⟨rfl, applyJobUpdate now ("failed") none none (some e0) j₀, ?_, rfl, rfl⟩
          exact find?_update_job _ now task_id ("failed") none none (some e0) j₀ hj₀
        | ok newId =>
          simp [ingest_document, insert_document, hemb] at h

/-- Witness for C2: a failing parse step on an empty database leaves the
knowledge base empty and records a failed job with the error message. -/
theorem ingest_document_atomic_witness :
    (ingest_document (.error ("download failed")) (fun _ => .error ("x"))
        (.error ("y")) ⟨[], []⟩ 0 ("t1") ("http://d") []).1.knowledge_base = [] ∧
    ∃ j, (ingest_document (.error ("download failed")) (fun _ => .error ("x"))
        (.error ("y")) ⟨[], []⟩ 0 ("t1") ("http://d") []).1.job_status.find?
          (fun row => row.celery_task_id == "t1") = some j ∧
        j.status = "failed" ∧ j.error_message = some ("download failed") := by
  have h := ingest_document_atomic.2 (.error ("download failed"))
    (fun _ => .error ("x")) (.error ("y")) ⟨[], []⟩ 0 ("t1") ("http://d") []
    (ingest_document (.error ("download failed")) (fun _ => .error ("x"))
      (.error ("y")) ⟨[], []⟩ 0 ("t1") ("http://d") []).1 ("download failed") rfl
  exact h

/-! ## Claim C4: error isolation in `ingest_batch` -/

theorem ingestBatchGo_docs (ing : Nat → String → Except String IngestResult) :
    ∀ (urls : List String) (i : Nat),
      (ingestBatchGo ing i urls).2.2 = entriesFrom ing i urls := by
  intro urls
  induction urls with
  | nil => intro i; rfl
  | cons url rest ih =>
    intro i
    simp only [ingestBatchGo, entriesFrom, entryOf]
    cases h : ing i url <;> simp [h, ih]

theorem ingestBatchGo_counts (ing : Nat → String → Except String IngestResult) :
    ∀ (urls : List String) (i : Nat),
      (ingestBatchGo ing i urls).1 =
        (entriesFrom ing i urls).countP ItemEntry.isOkEntry ∧
      (ingestBatchGo ing i urls).2.1 =
        (entriesFrom ing i urls).countP (fun x => !x.isOkEntry) := by
  intro urls
  induction urls with
  | nil => intro i; exact ⟨rfl, rfl⟩
  | cons url rest ih =>
    intro i
    simp only [ingestBatchGo, entriesFrom, entryOf]
    cases h : ing i url <;>
      simp [h, List.countP_cons, ItemEntry.isOkEntry, (ih (i + 1)).1, (ih (i + 1)).2]

theorem entriesFrom_length (ing : Nat → String → Except String IngestResult) :
    ∀ (urls : List String) (i : Nat),
      (entriesFrom ing i urls).length = urls.length := by
  intro urls
  induction urls with
  | nil => intro i; rfl
  | cons url rest ih => intro i; simp [entriesFrom, ih]

theorem entriesFrom_getElem (ing : Nat → String → Except String IngestResult) :
    ∀ (urls : List String) (i k : Nat) (hk : k < urls.length),
      (entriesFrom ing i urls)[k]? = some (entryOf ing (i + k) (urls.get ⟨k, hk⟩)) := by
  intro urls
  induction urls with
  | nil => intro i k hk; simp at hk
  | cons url rest ih =>
    intro i k hk
    cases k with
    | zero => simp [entriesFrom]
    | succ k' =>
      simp only [entriesFrom, List.getElem?_cons_succ]
      rw [ih (i + 1) k' (by simpa using hk)]
      congr 1
      rw [entryOf, entryOf]
      rw [show i + (k' + 1) = i + 1 + k' from by omega]
      rfl

theorem countP_unique_fail {α : Type} (p : α → Bool) :
    ∀ (l : List α) (j : Nat), j < l.length →
      (∀ (k : Nat) (x : α), l[k]? = some x → (p x = true ↔ k ≠ j)) →
      l.countP p = l.length - 1 := by
  intro l
  induction l with
  | nil => intro j hj _; simp at hj
  | cons a t ih =>
    intro j hj hmem
    cases j with
    | zero =>
      have ha : p a = false := by
        have h0 := hmem 0 a List.getElem?_cons_zero
        revert h0; cases p a <;> simp
      have htail : ∀ x ∈ t, p x = true := by
        intro x hx
        obtain ⟨k, hk⟩ := List.mem_iff_getElem?.mp hx
        exact (hmem (k + 1) x (by simpa using hk)).mpr (by omega)
      rw [List.countP_cons, ha]
      rw [List.countP_eq_length.mpr htail]
      simp
    | succ j' =>
      have ha : p a = true := (hmem 0 a List.getElem?_cons_zero).mpr (by omega)
      have hrec := ih j' (by simpa using hj) (fun k x hk => by
        have := hmem (k + 1) x (by simpa using hk)
        constructor
        · intro hp
          have := this.mp hp
          omega
        · intro hne
          exact this.mpr (by omega))
      rw [List.countP_cons, ha, hrec]
      have : j' < t.length := by simpa using hj
      simp
      omega

theorem countP_unique_pass {α : Type} (p : α → Bool) :
    ∀ (l : List α) (j : Nat), j < l.length →
      (∀ (k : Nat) (x : α), l[k]? = some x → (p x = true ↔ k = j)) →
      l.countP p = 1 := by
  intro l
  induction l with
  | nil => intro j hj _; simp at hj
  | cons a t ih =>
    intro j hj hmem
    cases j with
    | zero =>
      have ha : p a = true := (hmem 0 a List.getElem?_cons_zero).mpr rfl
      have htail : ∀ x ∈ t, p x = false := by
        intro x hx
        obtain ⟨k, hk⟩ := List.mem_iff_getElem?.mp hx
        have := hmem (k + 1) x (by simpa using hk)
        revert this; cases p x <;> simp
      rw [List.countP_cons, ha]
      rw [List.countP_eq_zero.mpr (fun x hx => by rw [htail x hx]; simp)]
      simp
    | succ j' =>
      have ha : p a = false := by
        have h0 := hmem 0 a List.getElem?_cons_zero
        revert h0; cases p a <;> simp
      have hrec := ih j' (by simpa using hj) (fun k x hk => by
        have := hmem (k + 1) x (by simpa using hk)
        constructor
        · intro hp
          have := this.mp hp
          omega
        · intro hke
          exact this.mpr (by omega))
      rw [List.countP_cons, ha, hrec]
      simp

/-- Claim C4: when exactly one item of the url list fails, `ingest_batch`
returns `total = N`, `success = N - 1`, `failed = 1`, and a `documents` list
with all N entries in input order; the failing item's entry records its url
and error, and the remaining items are still processed. -/
theorem ingest_batch_isolation (ing : Nat → String → Except String IngestResult)
    (urls : List String) (j : Nat) (hj : j < urls.length) (eBad : String)
    (hbad : ing j (urls.get ⟨j, hj⟩) = .error eBad)
    (hok : ∀ (i : Nat) (hi : i < urls.length), i ≠ j →
      ∃ r, ing i (urls.get ⟨i, hi⟩) = .ok r) :
    (ingest_batch ing urls).1.total = urls.length ∧
    (ingest_batch ing urls).1.success = urls.length - 1 ∧
    (ingest_batch ing urls).1.failed = 1 ∧
    (ingest_batch ing urls).1.documents.length = urls.length ∧
    (∀ (i : Nat) (hi : i < urls.length),
      (ingest_batch ing urls).1.documents[i]? =
        some (entryOf ing i (urls.get ⟨i, hi⟩))) ∧
    (ingest_batch ing urls).1.documents[j]? =
      some (.errEntry (urls.get ⟨j, hj⟩) eBad) := by
  have hget : ∀ (k : Nat) (hk : k < urls.length),
      (entriesFrom ing 0 urls)[k]? = some (entryOf ing k (urls.get ⟨k, hk⟩)) := by
    intro k hk
    have := entriesFrom_getElem ing urls 0 k hk
    simpa using this
  have hchar : ∀ (k : Nat) (x : ItemEntry), (entriesFrom ing 0 urls)[k]? = some x →
      (x.isOkEntry = true ↔ k ≠ j) := by
    intro k x hx
    have hk : k < urls.length := by
      have hlt := (List.getElem?_eq_some_iff.mp hx).1
      rw [entriesFrom_length] at hlt
      exact hlt
    rw [hget k hk, Option.some.injEq] at hx
    subst hx
    by_cases hkj : k = j
    · subst hkj
      have hb2 : ing k (urls.get ⟨k, hk⟩) = .error eBad := hbad
      rw [entryOf, hb2]
      simp [ItemEntry.isOkEntry]
    · obtain ⟨r, hr⟩ := hok k hk hkj
      rw [entryOf, hr]
      simp [ItemEntry.isOkEntry, hkj]
  have hjlen : j < (entriesFrom ing 0 urls).length := by
    rw [entriesFrom_length]; exact hj
  refine ⟨rfl, ?_, ?_, ?_, ?_, ?_⟩
  · show (ingestBatchGo ing 0 urls).1 = urls.length - 1
    rw [(ingestBatchGo_counts ing urls 0).1]
    rw [countP_unique_fail ItemEntry.isOkEntry (entriesFrom ing 0 urls) j hjlen hchar]
    rw [entriesFrom_length]
  · show (ingestBatchGo ing 0 urls).2.1 = 1
    rw [(ingestBatchGo_counts ing urls 0).2]
    apply countP_unique_pass _ _ j hjlen
    intro k x hx
    have hiff := hchar k x hx
    show (!x.isOkEntry) = true ↔ k = j
    constructor
    · intro hnot
      by_contra hkj
      have hT : x.isOkEntry = true := hiff.mpr hkj
      rw [hT] at hnot
      simp at hnot
    · intro hkj
      have hF : x.isOkEntry = false := by
        cases hb : x.isOkEntry
        · rfl
        · exact absurd hkj (hiff.mp hb)
      rw [hF]
      rfl
  · show (ingestBatchGo ing 0 urls).2.2.length = urls.length
    rw [ingestBatchGo_docs, entriesFrom_length]
  · intro i hi
    show (ingestBatchGo ing 0 urls).2.2[i]? = some (entryOf ing i (urls.get ⟨i, hi⟩))
    rw [ingestBatchGo_docs]
    exact hget i hi
  · show (ingestBatchGo ing 0 urls).2.2[j]? =
      some (.errEntry (urls.get ⟨j, hj⟩) eBad)
    rw [ingestBatchGo_docs, hget j hj]
    rw [entryOf, hbad]

/-- Witness for C4: three urls with item 1 failing yield
`success = 2, failed = 1` and all three per-item entries. -/
theorem ingest_batch_isolation_witness :
    (ingest_batch exIngestC4 ["a", "b", "c"]).1.success = 2 ∧
    (ingest_batch exIngestC4 ["a", "b", "c"]).1.failed = 1 ∧
    (ingest_batch exIngestC4 ["a", "b", "c"]).1.documents.length = 3 := by
  have h := ingest_batch_isolation exIngestC4 ["a", "b", "c"] 1 (by decide) ("down")
    (by simp [exIngestC4])
    (by
      intro i hi hne
      have hi3 : i < 3 := by simpa using hi
      interval_cases i
      · exact ⟨exIngestResult, by simp [exIngestC4]⟩
      · exact absurd rfl hne
      · exact ⟨exIngestResult, by simp [exIngestC4]⟩)
  exact ⟨h.2.1, h.2.2.1, h.2.2.2.1⟩
